import Mathlib

/-!
Verification development for the fabricks-ai-reliability-layer repository.

The repository executes named workflows ("intents") of ordered steps, with
per-step reliability policies (bounded retry, bounded timeout, single-level
fallback) and a telemetry trace.  This file gives a shallow embedding of:

* the policy primitives `runWithRetry` and `runWithTimeout`
  (src/src/core/engine.ts, lines 633-774);
* the compiled execution engine `runIntent`
  (src/dist/src/core/intent.js, lines 170-396), in namespace `Dist`;
* the TypeScript execution engine `runIntent`
  (src/src/core/engine.ts, lines 116-370), in namespace `EngineTs`;
* the compiler `defineIntent`
  (src/unnamed/part_004 and src/dist/src/core/intent.js, lines 24-61),
  plus a small JS-reference-semantics (heap) model of its copy/freeze tail.

Modelling conventions:
* JS exceptions become `Except JsError`; the error classes of the code
  (`Error`, `TimeOutError`, `RetryExhaustedError`, `TypeError`) become
  constructors of `JsError`.
* A unit of work is attempt-indexed: `Nat → AsyncWork Value` gives, for each
  attempt number, whether the work settles before a configured deadline timer
  and its outcome.  Real time is abstracted into the `settlesBeforeTimer`
  flag; timestamps are dropped from events.
* The telemetry sink argument is a `TelArg`: absent (`noSink`), a real sink
  (`sink`), or a non-callable value (`notCallable`, producing the JS
  TypeError that `telemetry?.(...)` raises on a non-function).  Each function
  returns the list of events it delivers to the sink, in order.
* The execution context is abstracted to the presence of a sink: the engines
  pass the context through to the steps opaquely, so step behaviour is fully
  described by the attempt-indexed work descriptors.
-/

/-- JS values that flow through step outputs: `undefined`, strings, numbers. -/
inductive Value where
  | undef : Value
  | str : String → Value
  | num : Int → Value
deriving DecidableEq, Repr

/-- JS error objects thrown by the code: plain `Error`, the `TimeOutError`
and `RetryExhaustedError` classes of src/src/core/engine.ts, the built-in
`TypeError`, and opaque unit-of-work errors thrown by user steps. -/
inductive JsError where
  | jsError : String → JsError
  | timeOutError : String → JsError
  | retryExhaustedError : String → JsError
  | typeError : String → JsError
  | userError : String → JsError
deriving DecidableEq, Repr

/-- The runtime `name` property of each modelled error class (the code sets
`this.name = "TimeOutError"` resp. `"RetryExhaustError"`). -/
def errName : JsError → String
  | .jsError _ => "Error"
  | .timeOutError _ => "TimeOutError"
  | .retryExhaustedError _ => "RetryExhaustError"
  | .typeError _ => "TypeError"
  | .userError _ => "Error"

/-- Telemetry events (src/src/core/engine.ts and src/dist/src/core/intent.js).
Timestamps are real time and are omitted; all other fields are kept. -/
inductive TEvent where
  | intent_started : String → TEvent
  | intent_finished : String → Bool → Option JsError → TEvent
  | step_started : String → String → TEvent
  | step_finished : String → String → Bool → Option JsError → TEvent
  | retry_attempt_started : String → Option String → Nat → TEvent
  | retry_attempt_failed : String → Option String → Nat → JsError → TEvent
  | timeout_started : String → Option String → TEvent
  | timeout_fired : String → Option String → TEvent
  | timeout_cleared : String → Option String → TEvent
deriving DecidableEq, Repr

/-- The value occupying the `telemetry` parameter slot: `undefined` (no sink),
a genuine sink function, or a non-function value (on which `telemetry?.(...)`
throws a TypeError). -/
inductive TelArg where
  | noSink : TelArg
  | sink : TelArg
  | notCallable : TelArg
deriving DecidableEq, Repr

/-- `interface RetryPolicy { maxAttemps: number }` (src/src/core/engine.ts,
lines 633-635; note the source spelling `maxAttemps`).  The field is an
`Option` so that a policy object written without that exact field — for
example `{maxAttempts: k}` — is representable: reading the missing field
yields JS `undefined`, modelled as `none`. -/
structure RetryPolicy where
  maxAttemps : Option Int
deriving DecidableEq, Repr

/-- An asynchronous unit of work for one attempt: whether it settles before a
configured deadline timer would fire, and the outcome it settles with.  The
real-time race of `runWithTimeout` is abstracted into `settlesBeforeTimer`. -/
structure AsyncWork (α : Type) where
  settlesBeforeTimer : Bool
  outcome : Except JsError α

/-- `intentName ?? "(unknown-intent)"` as used for event fields. -/
def jsName (o : Option String) : String := o.getD "(unknown-intent)"

/-- Events delivered to the sink: kept only when a genuine sink is present. -/
def emitIf (tel : TelArg) (es : List TEvent) : List TEvent :=
  match tel with
  | .sink => es
  | _ => []

/-- Message of the `RetryExhaustedError` thrown by `runWithRetry`
(src/src/core/engine.ts, lines 686-689): the detailed form requires both
`intentName` and `stepId` to be truthy (`intentName && stepId`). -/
def retryMsg (iname sid : Option String) (m : Int) : String :=
  match iname, sid with
  | some n, some s =>
      if n = "" then s!"Operation failed after {m} attempts"
      else if s = "" then s!"Operation failed after {m} attempts"
      else s!"Step \"{s}\" in intent \"{n}\" failed retry after {m} attempts"
  | _, _ => s!"Operation failed after {m} attempts"

/-- Message of the `TimeOutError` built by `runWithTimeout`
(src/src/core/engine.ts, lines 724-726). -/
def timeoutMsg (iname sid : Option String) (t : Int) : String :=
  match iname, sid with
  | some n, some s =>
      if n = "" then s!"Operation timed out after {t}ms"
      else if s = "" then s!"Operation timed out after {t}ms"
      else s!"Step \"{s}\" in intent \"{n}\" timed out after {t}ms"
  | _, _ => s!"Operation timed out after {t}ms"

/-- `policy && policy.maxAttemps > 0 ? policy.maxAttemps : 1`
(src/src/core/engine.ts, lines 661-662).  A missing policy, a policy without
the `maxAttemps` field (JS `undefined > 0` is false), or a non-positive value
all give 1. -/
def attemptBound (policy : Option RetryPolicy) : Int :=
  match policy with
  | none => 1
  | some p =>
      match p.maxAttemps with
      | none => 1
      | some v => if v > 0 then v else 1

/-- The loop of `runWithRetry` (src/src/core/engine.ts, lines 666-706),
from attempt number `attempt` on, with `fuel` bounding the remaining
iterations (the JS loop runs at most `maxAttempts` iterations; callers pass
enough fuel).  The unit of work `fn` returns, per attempt, the events it
itself delivers to the sink (e.g. timeout telemetry) and its outcome.
Returns the sink-delivered events in order and the overall outcome. -/
def runWithRetryGo (fn : Nat → List TEvent × Except JsError α) (tel : TelArg)
    (iname sid : Option String) (maxAttempts : Int) :
    Nat → Nat → Option JsError → List TEvent × Except JsError α
  | _, 0, lastError =>
      ([], .error (lastError.getD (.jsError "Unknown retry failure")))
  | attempt, fuel + 1, lastError =>
      if (attempt : Int) > maxAttempts then
        ([], .error (lastError.getD (.jsError "Unknown retry failure")))
      else if tel = .notCallable then
        ([], .error (.typeError "telemetry is not a function"))
      else
        let started := emitIf tel [.retry_attempt_started (jsName iname) sid attempt]
        match fn attempt with
        | (fnEvs, .ok v) => (started ++ fnEvs, .ok v)
        | (fnEvs, .error e) =>
            if (attempt : Int) = maxAttempts then
              if maxAttempts > 1 then
                (started ++ fnEvs,
                  .error (.retryExhaustedError (retryMsg iname sid maxAttempts)))
              else
                (started ++ fnEvs, .error e)
            else
              let failed := emitIf tel [.retry_attempt_failed (jsName iname) sid attempt e]
              let rest := runWithRetryGo fn tel iname sid maxAttempts (attempt + 1) fuel (some e)
              (started ++ fnEvs ++ failed ++ rest.1, rest.2)

/-- `runWithRetry` (src/src/core/engine.ts, lines 652-709): the five-argument
retry primitive with telemetry. -/
def runWithRetry (fn : Nat → List TEvent × Except JsError α) (tel : TelArg)
    (iname sid : Option String) (policy : Option RetryPolicy) :
    List TEvent × Except JsError α :=
  let m := attemptBound policy
  runWithRetryGo fn tel iname sid m 1 (m.toNat + 1) none

/-- `runWithTimeout` (src/src/core/engine.ts, lines 711-774).  With an absent
or non-positive `timeoutMs` the work runs unwrapped with no telemetry;
otherwise `timeout_started` is emitted and the work races the timer:
work first → `timeout_cleared` and the unchanged outcome; timer first →
`timeout_fired` and a `TimeOutError`. -/
def runWithTimeout (w : AsyncWork α) (timeoutMs : Option Int) (tel : TelArg)
    (iname sid : Option String) : List TEvent × Except JsError α :=
  match timeoutMs with
  | none => ([], w.outcome)
  | some t =>
      if t ≤ 0 then ([], w.outcome)
      else if tel = .notCallable then
        ([], .error (.typeError "telemetry is not a function"))
      else
        let started := emitIf tel [.timeout_started (jsName iname) sid]
        if w.settlesBeforeTimer then
          (started ++ emitIf tel [.timeout_cleared (jsName iname) sid], w.outcome)
        else
          (started ++ emitIf tel [.timeout_fired (jsName iname) sid],
            .error (.timeOutError (timeoutMsg iname sid t)))

/-- A step of an intent (the `StepConfig` shape consumed by both engines):
`id`, the attempt-indexed unit of work `run`, and the optional `retry`,
`timeoutMs` and `fallbackTo` policies. -/
structure StepConfig where
  id : String
  run : Nat → AsyncWork Value
  retry : Option RetryPolicy := none
  timeoutMs : Option Int := none
  fallbackTo : Option String := none

/-- A compiled intent as consumed by `runIntent`:
name, ordered steps, optional entry step id. -/
structure Intent where
  name : String
  steps : List StepConfig
  entryStepId : Option String := none

/-- The record returned by `runStepWithFallback` in the compiled engine:
`{success, output?, nextStepId?, error?}`. -/
structure StepRes where
  success : Bool
  output : Option Value := none
  nextStepId : Option String := none
  error : Option JsError := none
deriving DecidableEq, Repr

/-- The `ExecutionResult` returned by a run: `{intentName, success, output?,
error?, trace}`.  An absent `output` key (JS `undefined`) is `Value.undef`. -/
structure RunResult where
  intentName : String
  success : Bool
  output : Value
  error : Option JsError
  trace : List TEvent
deriving DecidableEq, Repr

/-- JS `Array.prototype.findIndex`: index of the first match, `-1` if none. -/
def jsFindIndex (p : α → Bool) (l : List α) : Int :=
  match l.findIdx? p with
  | some n => (n : Int)
  | none => -1

/-- JS array indexing `l[i]`: `undefined` out of range or for negative `i`. -/
def jsGetArr (l : List α) (i : Int) : Option α :=
  if i < 0 then none else l.get? i.toNat

/-- `true` when a sink is injected; maps to the `TelArg` actually passed. -/
def telArgOfBool (b : Bool) : TelArg := if b then .sink else .noSink

/-- Events forwarded to an injected sink (empty when no sink is present). -/
def sinkOf (telB : Bool) (es : List TEvent) : List TEvent :=
  if telB then es else []

namespace Dist

/-- The primary retry+timeout pipeline the compiled engine wraps around a
step (src/dist/src/core/intent.js, line 244 and line 311): retry outside,
a fresh timeout per attempt, with the context's telemetry, the intent name
and the step id passed to both primitives. -/
def stepPipeline (telB : Bool) (name : String) (step : StepConfig) :
    List TEvent × Except JsError Value :=
  runWithRetry
    (fun a => runWithTimeout (step.run a) step.timeoutMs (telArgOfBool telB)
      (some name) (some step.id))
    (telArgOfBool telB) (some name) (some step.id) step.retry

/-- `runStepWithFallback` (src/dist/src/core/intent.js, lines 235-342):
runs a step through the pipeline, resolves its optional fallback, and
reports success/output/next-step/error.  Returns
(trace events, sink events, result); `emit` pushes to both trace and sink
while the policy primitives deliver only to the sink. -/
def runStepWithFallback (steps : List StepConfig) (name : String) (telB : Bool)
    (step : StepConfig) : List TEvent × List TEvent × StepRes :=
  let ss := TEvent.step_started name step.id
  match stepPipeline telB name step with
  | (primEvs, .ok output) =>
      let sf := TEvent.step_finished name step.id true none
      let idx := jsFindIndex (fun s => s.id == step.id) steps
      let next := jsGetArr steps (idx + 1)
      ([ss, sf], sinkOf telB ([ss] ++ primEvs ++ [sf]),
        ⟨true, some output, next.map (fun s => s.id), none⟩)
  | (primEvs, .error error) =>
      match step.fallbackTo with
      | none =>
          let sf := TEvent.step_finished name step.id false (some error)
          ([ss, sf], sinkOf telB ([ss] ++ primEvs ++ [sf]),
            ⟨false, none, none, some error⟩)
      | some fid =>
          match steps.find? (fun s => s.id == fid) with
          | none =>
              let fe := JsError.jsError s!"fallbackTo \"{fid}\" does not match any step id."
              let sf := TEvent.step_finished name step.id false (some fe)
              ([ss, sf], sinkOf telB ([ss] ++ primEvs ++ [sf]),
                ⟨false, none, none, some fe⟩)
          | some fallbackStep =>
              let sfp := TEvent.step_finished name step.id false (some error)
              let ssf := TEvent.step_started name fallbackStep.id
              match stepPipeline telB name fallbackStep with
              | (fbEvs, .ok fallbackOutput) =>
                  let sff := TEvent.step_finished name fallbackStep.id true none
                  let idx := jsFindIndex (fun s => s.id == fallbackStep.id) steps
                  let next := jsGetArr steps (idx + 1)
                  ([ss, sfp, ssf, sff],
                    sinkOf telB ([ss] ++ primEvs ++ [sfp, ssf] ++ fbEvs ++ [sff]),
                    ⟨true, some fallbackOutput, next.map (fun s => s.id), none⟩)
              | (fbEvs, .error fallbackError) =>
                  let sff := TEvent.step_finished name fallbackStep.id false (some fallbackError)
                  ([ss, sfp, ssf, sff],
                    sinkOf telB ([ss] ++ primEvs ++ [sfp, ssf] ++ fbEvs ++ [sff]),
                    ⟨false, none, none, some fallbackError⟩)

/-- `if (output !== undefined) lastOutput = output`
(src/dist/src/core/intent.js, lines 378-380). -/
def nextLast (res : StepRes) (lastOutput : Value) : Value :=
  match res.output with
  | some v => if v = Value.undef then lastOutput else v
  | none => lastOutput

/-- The main linear loop of the compiled engine
(src/dist/src/core/intent.js, lines 344-389), including the terminal
`intent_finished` emissions.  `fuel` bounds the number of iterations (the JS
loop can diverge on pathological workflows; `none` models divergence).
Returns (trace events, sink events, success flag, output, error). -/
def runLoop (steps : List StepConfig) (name : String) (telB : Bool) :
    Nat → Option String → Value →
    Option (List TEvent × List TEvent × Bool × Value × Option JsError)
  | _, none, lastOutput =>
      let fin := TEvent.intent_finished name true none
      some ([fin], sinkOf telB [fin], true, lastOutput, none)
  | fuel, some cid, lastOutput =>
      if cid = "" then
        let fin := TEvent.intent_finished name true none
        some ([fin], sinkOf telB [fin], true, lastOutput, none)
      else
        match fuel with
        | 0 => none
        | fuel + 1 =>
            match steps.find? (fun s => s.id == cid) with
            | none =>
                let e := JsError.jsError s!"Intent \"{name}\" references unknown step \"{cid}\"."
                let fin := TEvent.intent_finished name false (some e)
                some ([fin], sinkOf telB [fin], false, Value.undef, some e)
            | some step =>
                let r := runStepWithFallback steps name telB step
                let res := r.2.2
                if res.success then
                  match runLoop steps name telB fuel res.nextStepId (nextLast res lastOutput) with
                  | none => none
                  | some (tr2, sk2, succ, out, err) =>
                      some (r.1 ++ tr2, r.2.1 ++ sk2, succ, out, err)
                else
                  let fin := TEvent.intent_finished name false res.error
                  some (r.1 ++ [fin], r.2.1 ++ sinkOf telB [fin], false,
                    Value.undef, res.error)

/-- `runIntent` of the compiled engine (src/dist/src/core/intent.js, lines
170-396).  Returns the `ExecutionResult` together with the full event
sequence delivered to the injected sink, or `none` when the main loop
exceeds `fuel` iterations (JS divergence). -/
def runIntent (intent : Intent) (telB : Bool) (fuel : Nat) :
    Option (RunResult × List TEvent) :=
  let name := intent.name
  let is := TEvent.intent_started name
  match intent.steps with
  | [] =>
      let e := JsError.jsError s!"Intent \"{name}\" has no steps defined."
      let fin := TEvent.intent_finished name false (some e)
      some (⟨name, false, Value.undef, some e, [is, fin]⟩, sinkOf telB [is, fin])
  | s0 :: _ =>
      let entryId := intent.entryStepId.getD s0.id
      match intent.steps.find? (fun s => s.id == entryId) with
      | none =>
          let e := JsError.jsError s!"entryStepId \"{entryId}\" does not match any step id."
          let fin := TEvent.intent_finished name false (some e)
          some (⟨name, false, Value.undef, some e, [is, fin]⟩, sinkOf telB [is, fin])
      | some entryStep =>
          match runLoop intent.steps name telB fuel (some entryStep.id) Value.undef with
          | none => none
          | some (tr, sk, succ, out, err) =>
              some (⟨name, succ, out, err, [is] ++ tr⟩, sinkOf telB [is] ++ sk)

end Dist

namespace EngineTs

/-- The primary pipeline of the TypeScript engine (src/src/core/engine.ts,
lines 206-209): retry with the context's telemetry, intent name, step id and
the step's policy; the inner `runWithTimeout` is called with only the work
and `timeoutMs`, so its telemetry and identity arguments are `undefined`. -/
def stepPipelinePrimary (telB : Bool) (name : String) (step : StepConfig) :
    List TEvent × Except JsError Value :=
  runWithRetry
    (fun a => runWithTimeout (step.run a) step.timeoutMs .noSink none none)
    (telArgOfBool telB) (some name) (some step.id) step.retry

/-- The value landing in `runWithRetry`'s `telemetry` parameter at the
fallback call site (src/src/core/engine.ts, lines 314-321): the call passes
`fallbackStep.retry` as the second argument, so an absent policy arrives as
`undefined` and a present policy object arrives as a non-callable value. -/
def fallbackTelArg : Option RetryPolicy → TelArg
  | none => .noSink
  | some _ => .notCallable

/-- The fallback pipeline of the TypeScript engine (src/src/core/engine.ts,
lines 314-321): `runWithRetry` receives the fallback step's retry policy in
the telemetry slot and nothing in the name, step-id and policy slots. -/
def stepPipelineFallback (fallbackStep : StepConfig) :
    List TEvent × Except JsError Value :=
  runWithRetry
    (fun a => runWithTimeout (fallbackStep.run a) fallbackStep.timeoutMs .noSink none none)
    (fallbackTelArg fallbackStep.retry) none none none

/-- Runs the resolved entry step of the TypeScript engine, lines 190-370:
telemetry for intent/step events is pushed only into the local `trace`
(never forwarded to the sink), and at most one fallback hop is taken —
there is no loop over the remaining steps. -/
def runEntryStep (steps : List StepConfig) (name : String) (telB : Bool)
    (stepToRun : StepConfig) : RunResult × List TEvent :=
  let is := TEvent.intent_started name
  let ss := TEvent.step_started name stepToRun.id
  match stepPipelinePrimary telB name stepToRun with
  | (primEvs, .ok output) =>
      (⟨name, true, output, none,
        [is, ss, TEvent.step_finished name stepToRun.id true none,
          TEvent.intent_finished name true none]⟩, primEvs)
  | (primEvs, .error error) =>
      match stepToRun.fallbackTo with
      | none =>
          (⟨name, false, Value.undef, some error,
            [is, ss, TEvent.step_finished name stepToRun.id false (some error),
              TEvent.intent_finished name false (some error)]⟩, primEvs)
      | some fid =>
          match steps.find? (fun s => s.id == fid) with
          | none =>
              let fe := JsError.jsError s!"fallbackTo \"{fid}\" does not match any step id."
              (⟨name, false, Value.undef, some fe,
                [is, ss, TEvent.step_finished name stepToRun.id false (some fe),
                  TEvent.intent_finished name false (some fe)]⟩, primEvs)
          | some fallbackStep =>
              let sfp := TEvent.step_finished name stepToRun.id false (some error)
              let ssf := TEvent.step_started name fallbackStep.id
              match stepPipelineFallback fallbackStep with
              | (fbEvs, .ok fallbackOutput) =>
                  (⟨name, true, fallbackOutput, none,
                    [is, ss, sfp, ssf,
                      TEvent.step_finished name fallbackStep.id true none,
                      TEvent.intent_finished name true none]⟩, primEvs ++ fbEvs)
              | (fbEvs, .error fallbackError) =>
                  (⟨name, false, Value.undef, some fallbackError,
                    [is, ss, sfp, ssf,
                      TEvent.step_finished name fallbackStep.id false (some fallbackError),
                      TEvent.intent_finished name false (some fallbackError)]⟩,
                    primEvs ++ fbEvs)

/-- `runIntent` of the TypeScript engine (src/src/core/engine.ts, lines
116-370).  Always terminates (no main loop); returns the `ExecutionResult`
and the events delivered to an injected sink (only the retry primitive of
the primary call ever sees the sink). -/
def runIntent (intent : Intent) (telB : Bool) : RunResult × List TEvent :=
  let name := intent.name
  let is := TEvent.intent_started name
  match intent.steps with
  | [] =>
      let e := JsError.jsError s!"Intent \"{name}\" has no steps defined."
      (⟨name, false, Value.undef, some e,
        [is, TEvent.intent_finished name false (some e)]⟩, [])
  | s0 :: _ =>
      match intent.entryStepId with
      | none => runEntryStep intent.steps name telB s0
      | some eid =>
          if eid = "" then runEntryStep intent.steps name telB s0
          else
            match intent.steps.find? (fun s => s.id == eid) with
            | none =>
                let e := JsError.jsError s!"entryStepId \"{eid}\" does not match any step id."
                (⟨name, false, Value.undef, some e,
                  [is, TEvent.intent_finished name false (some e)]⟩, [])
            | some found => runEntryStep intent.steps name telB found

end EngineTs

/-- A user-supplied step description as seen by the compiler: `id` (`""`
models a missing or empty id, both falsy in JS), whether `run` is a
function, and the optional fallback reference (not validated by the
compiler). -/
structure StepDesc where
  id : String
  hasRun : Bool
  fallbackTo : Option String := none
deriving DecidableEq, Repr

/-- A user-supplied intent description: `name` is `none` when missing or not
a string, `steps` is `none` when not an array. -/
structure IntentConfig where
  name : Option String
  steps : Option (List StepDesc)
  entryStepId : Option String := none
deriving DecidableEq, Repr

/-- The normalized, frozen intent produced by the compiler. -/
structure WorkflowDef where
  name : String
  steps : List StepDesc
  entryStepId : String
deriving DecidableEq, Repr

/-- The per-step validation loop of `defineIntent` (src/unnamed/part_004,
lines 70-88): no missing id, no duplicate id (`ids` is the set built so
far), and a valid `run` function; returns the collected id list. -/
def validateSteps (name : String) :
    List StepDesc → List String → Except JsError (List String)
  | [], ids => .ok ids
  | st :: rest, ids =>
      if st.id = "" then
        .error (.jsError s!"defineIntent(\"{name}\"): found a step with no id")
      else if st.id ∈ ids then
        let sid := st.id
        .error (.jsError s!"defineIntent(\"{name}\"): duplicate step id \"{sid}\"")
      else if st.hasRun = false then
        let sid := st.id
        .error (.jsError s!"defineIntent(\"{name}\"): step \"{sid}\" is missing a valid run() function")
      else
        validateSteps name rest (ids ++ [st.id])

/-- `defineIntent` (src/unnamed/part_004, lines 46-108, identical in
src/dist/src/core/intent.js lines 24-61): validates the description and
returns the normalized frozen workflow; every validation failure throws a
plain `Error`. -/
def defineIntent (config : Option IntentConfig) : Except JsError WorkflowDef :=
  match config with
  | none => .error (.jsError "Config must be an object")
  | some cfg =>
      match cfg.name with
      | none => .error (.jsError "Intent must have a non-empty name")
      | some name =>
          if name = "" then .error (.jsError "Intent must have a non-empty name")
          else
            match cfg.steps with
            | none => .error (.jsError s!"defineIntent(\"{name}\"): intent must have at least one step")
            | some steps =>
                match steps with
                | [] => .error (.jsError s!"defineIntent(\"{name}\"): intent must have at least one step")
                | s0 :: _ =>
                    match validateSteps name steps [] with
                    | .error e => .error e
                    | .ok ids =>
                        let finalEntryStepId := cfg.entryStepId.getD s0.id
                        if finalEntryStepId ∈ ids then
                          .ok ⟨name, steps, finalEntryStepId⟩
                        else
                          let eid := finalEntryStepId
                          .error (.jsError s!"defineIntent(\"{name}\"): entryStepId \"{eid}\" does not match any step id")

/-!
JS reference-semantics (heap) model of the tail of `defineIntent`
(src/unnamed/part_004, lines 99-108):

    const normalized = { name, steps: steps.slice(), entryStepId };
    return Object.freeze(normalized);

`steps.slice()` copies the array but shares the step objects inside, and
`Object.freeze` is shallow.  To express that, arrays and step objects live
in an explicit store, and the caller's description holds a reference to its
steps array; step objects are referenced by index.
-/

/-- The heap: arrays of step-object references, and step objects. -/
structure HStore where
  arrays : List (List Nat)
  objs : List StepDesc
deriving DecidableEq, Repr

/-- A compiled workflow in the heap model: the scalar fields are copied
values; `stepsRef` points at the array freshly allocated by `slice()`. -/
structure HWorkflow where
  name : String
  stepsRef : Nat
  entryStepId : String
deriving DecidableEq, Repr

/-- Mutate the step object at reference `r` (e.g. `desc.steps[0].id = ...`
performed by the caller after compiling). -/
def setObj (st : HStore) (r : Nat) (o : StepDesc) : HStore :=
  { st with objs := st.objs.set r o }

/-- Replace the contents of the array at reference `r` (covers `push`,
`splice`, reordering — any structural mutation of the caller's array). -/
def setArray (st : HStore) (r : Nat) (v : List Nat) : HStore :=
  { st with arrays := st.arrays.set r v }

/-- Dereference a step object (valid references only ever arise here). -/
def derefObj (st : HStore) (r : Nat) : StepDesc :=
  (st.objs.get? r).getD ⟨"", false, none⟩

/-- `defineIntent` with JS reference semantics for the steps array: the
same validation as `defineIntent`, reading step objects through the store,
and on success a fresh array (the `slice()` copy) holding the same object
references is allocated; the returned workflow's scalar fields are copies.
A dangling `stepsRef` plays the role of `config.steps` not being an array. -/
def defineIntentH (st : HStore) (name : Option String) (stepsRef : Nat)
    (entry : Option String) : Except JsError (HStore × HWorkflow) :=
  match name with
  | none => .error (.jsError "Intent must have a non-empty name")
  | some nm =>
      if nm = "" then .error (.jsError "Intent must have a non-empty name")
      else
        match st.arrays.get? stepsRef with
        | none => .error (.jsError s!"defineIntent(\"{nm}\"): intent must have at least one step")
        | some refs =>
            match refs with
            | [] => .error (.jsError s!"defineIntent(\"{nm}\"): intent must have at least one step")
            | r0 :: _ =>
                match validateSteps nm (refs.map (derefObj st)) [] with
                | .error e => .error e
                | .ok ids =>
                    let finalEntryStepId := entry.getD (derefObj st r0).id
                    if finalEntryStepId ∈ ids then
                      .ok ({ st with arrays := st.arrays ++ [refs] },
                        ⟨nm, st.arrays.length, finalEntryStepId⟩)
                    else
                      let eid := finalEntryStepId
                      .error (.jsError s!"defineIntent(\"{nm}\"): entryStepId \"{eid}\" does not match any step id")

/-- The step sequence of a compiled workflow as observed through the heap:
the workflow's array dereferenced, each entry dereferenced to its object. -/
def wfStepsView (st : HStore) (wf : HWorkflow) : List StepDesc :=
  ((st.arrays.get? wf.stepsRef).getD []).map (derefObj st)

/-- Event-kind predicates used to state trace properties. -/
def isIntentFinished : TEvent → Bool
  | .intent_finished _ _ _ => true
  | _ => false

/-- Engine-level events: the four kinds `emit` pushes into the trace. -/
def isEngineEvent : TEvent → Bool
  | .intent_started _ => true
  | .intent_finished _ _ _ => true
  | .step_started _ _ => true
  | .step_finished _ _ _ _ => true
  | _ => false

/-- Step-level events (used to show the per-step helper emits no
intent-level event into the trace). -/
def isStepEvent : TEvent → Bool
  | .step_started _ _ => true
  | .step_finished _ _ _ _ => true
  | _ => false

def isRetryStarted : TEvent → Bool
  | .retry_attempt_started _ _ _ => true
  | _ => false

def isRetryFailed : TEvent → Bool
  | .retry_attempt_failed _ _ _ _ => true
  | _ => false

/-! ### Concrete workflows used to evaluate the engines. -/

/-- A step that always succeeds immediately with the string `out`. -/
def okStep (sid out : String) : StepConfig :=
  ⟨sid, fun _ => ⟨true, .ok (.str out)⟩, none, none, none⟩

/-- Two clean steps in declared order (the repo's own multi-step test). -/
def twoStepIntent : Intent :=
  ⟨"two-step-intent", [okStep "step-1" "first", okStep "step-2" "second"], some "step-1"⟩

/-- The spec's concrete fallback scenario: `a` always throws and falls back
to `b`, which returns `"ok"`. -/
def fallbackIntent : Intent :=
  ⟨"fallback-intent",
    [⟨"a", fun _ => ⟨true, .error (.userError "primary blew up")⟩, none, none, some "b"⟩,
     okStep "b" "ok"], some "a"⟩

/-- Two clean steps whose last step succeeds with `undefined`. -/
def undefTailIntent : Intent :=
  ⟨"undef-tail",
    [⟨"u1", fun _ => ⟨true, .ok (.num 1)⟩, none, none, none⟩,
     ⟨"u2", fun _ => ⟨true, .ok .undef⟩, none, none, none⟩], none⟩

/-- One clean step. -/
def oneStepIntent : Intent := ⟨"one-step", [okStep "s1" "v1"], none⟩

/-! ### General-purpose lemmas shared by several claims. -/

theorem sinkOf_append (b : Bool) (l1 l2 : List TEvent) :
    sinkOf b (l1 ++ l2) = sinkOf b l1 ++ sinkOf b l2 := by
  cases b <;> simp [sinkOf]

theorem find?_append_cons (p : α → Bool) (pre post : List α) (x : α)
    (hx : p x = true) (hpre : ∀ a ∈ pre, p a = false) :
    (pre ++ x :: post).find? p = some x := by
  induction pre with
  | nil => simp [hx]
  | cons a pre ih =>
      have ha : ¬ p a = true := by simp [hpre a (by simp)]
      simpa [List.find?_cons_of_neg _ ha] using ih fun b hb => hpre b (by simp [hb])

theorem findIdx?_append_cons (p : α → Bool) (pre post : List α) (x : α)
    (hx : p x = true) (hpre : ∀ a ∈ pre, p a = false) :
    (pre ++ x :: post).findIdx? p = some pre.length := by
  induction pre with
  | nil => simp [hx]
  | cons a pre ih =>
      have ha : ¬ p a = true := by simp [hpre a (by simp)]
      have := ih fun b hb => hpre b (by simp [hb])
      simp [List.findIdx?_cons, ha, List.findIdx?_succ, this]

theorem jsFindIndex_append_cons (p : StepConfig → Bool) (pre post : List StepConfig)
    (x : StepConfig) (hx : p x = true) (hpre : ∀ a ∈ pre, p a = false) :
    jsFindIndex p (pre ++ x :: post) = (pre.length : Int) := by
  simp [jsFindIndex, findIdx?_append_cons p pre post x hx hpre]

theorem jsGetArr_after (pre post : List α) (x : α) :
    jsGetArr (pre ++ x :: post) ((pre.length : Int) + 1) = post.head? := by
  have h0 : ¬ ((pre.length : Int) + 1 < 0) := by omega
  have h1 : ((pre.length : Int) + 1).toNat = pre.length + 1 := by omega
  simp only [jsGetArr, if_neg h0, h1, List.get?_eq_getElem?]
  rw [List.getElem?_append_right (by omega)]
  simp [List.head?_eq_getElem?]

theorem nodup_split_pre {steps pre post : List StepConfig} {s : StepConfig}
    (h : steps = pre ++ s :: post)
    (hn : (steps.map (fun st => st.id)).Nodup) :
    ∀ p ∈ pre, p.id ≠ s.id := by
  subst h
  rw [List.map_append, List.nodup_append] at hn
  intro p hp he
  exact hn.2.2 (List.mem_map_of_mem _ hp) (by simp [he])

/-! ### Claim C3: the timeout primitive. -/

/-- C3: for every unit of work and every `timeoutMs`: when `timeoutMs` is
absent or non-positive the work runs unwrapped with no telemetry; otherwise
`timeout_started` is emitted and then either the work settles first
(`timeout_cleared`, outcome propagated unchanged) or the timer fires first
(`timeout_fired`, failure with a `TimeOutError` naming the workflow, the
step and the configured bound). -/
theorem runWithTimeout_contract {α : Type} (w : AsyncWork α) (n s : String)
    (hn : n ≠ "") (hs : s ≠ "") :
    (runWithTimeout w none .sink (some n) (some s) = ([], w.outcome))
    ∧ (∀ v : Int, v ≤ 0 →
        runWithTimeout w (some v) .sink (some n) (some s) = ([], w.outcome))
    ∧ (∀ v : Int, 0 < v → w.settlesBeforeTimer = true →
        runWithTimeout w (some v) .sink (some n) (some s) =
          ([.timeout_started n (some s), .timeout_cleared n (some s)], w.outcome))
    ∧ (∀ v : Int, 0 < v → w.settlesBeforeTimer = false →
        runWithTimeout w (some v) .sink (some n) (some s) =
          ([.timeout_started n (some s), .timeout_fired n (some s)],
            .error (.timeOutError s!"Step \"{s}\" in intent \"{n}\" timed out after {v}ms"))) := by
  refine ⟨rfl, ?_, ?_, ?_⟩
  · intro v hv
    simp [runWithTimeout, hv]
  · intro v hv hw
    simp [runWithTimeout, show ¬ v ≤ 0 by omega, emitIf, jsName, hw]
  · intro v hv hw
    simp [runWithTimeout, show ¬ v ≤ 0 by omega, emitIf, jsName, hw, timeoutMsg, hn, hs]

/-- Witness for C3: concrete timed-out and untimed runs. -/
theorem runWithTimeout_contract_witness :
    runWithTimeout (⟨false, .ok (Value.str "late")⟩ : AsyncWork Value)
        (some 10) .sink (some "w") (some "s") =
      ([.timeout_started "w" (some "s"), .timeout_fired "w" (some "s")],
        .error (.timeOutError "Step \"s\" in intent \"w\" timed out after 10ms"))
    ∧ runWithTimeout (⟨true, .ok (Value.str "v")⟩ : AsyncWork Value)
        none .sink (some "w") (some "s") = ([], .ok (Value.str "v")) := by
  have h := runWithTimeout_contract (⟨false, .ok (Value.str "late")⟩ : AsyncWork Value)
    "w" "s" (by decide) (by decide)
  have h2 := runWithTimeout_contract (⟨true, .ok (Value.str "v")⟩ : AsyncWork Value)
    "w" "s" (by decide) (by decide)
  exact ⟨h.2.2.2 10 (by decide) rfl, h2.1⟩

/-! ### Claim C10: the retry primitive reads `maxAttemps`. -/

/-- C10: the retry primitive reads its bound from the field spelled
`maxAttemps`; a policy object lacking that exact field (e.g. one written
`{maxAttempts: k}`) or carrying a non-positive value gets exactly one
attempt, and a failure propagates as the original unwrapped error. -/
theorem runWithRetry_maxAttemps_field {α : Type}
    (fn : Nat → List TEvent × Except JsError α) (e : JsError)
    (iname sid : Option String) (p : RetryPolicy)
    (hp : p.maxAttemps = none ∨ ∃ v, p.maxAttemps = some v ∧ v ≤ 0)
    (hfn : fn 1 = ([], .error e)) :
    runWithRetry fn .sink iname sid (some p) =
      ([.retry_attempt_started (jsName iname) sid 1], .error e) := by
  have hm : attemptBound (some p) = 1 := by
    rcases hp with h | ⟨v, hv, hle⟩
    · simp [attemptBound, h]
    · simp [attemptBound, hv, show ¬ v > 0 by omega]
  simp [runWithRetry, hm, runWithRetryGo, hfn, emitIf]

/-- Witness for C10: a `{maxAttempts: 5}`-style policy (missing the
`maxAttemps` field) makes a single attempt and rethrows the raw error. -/
theorem runWithRetry_maxAttemps_field_witness :
    runWithRetry
        (fun _ => ([], .error (.userError "boom")) :
          Nat → List TEvent × Except JsError Value)
        .sink (some "w") (some "s") (some ⟨none⟩) =
      ([.retry_attempt_started "w" (some "s") 1],
        .error (JsError.userError "boom")) := by
  have h := runWithRetry_maxAttemps_field
    (fun _ => ([], .error (.userError "boom")) :
      Nat → List TEvent × Except JsError Value)
    (.userError "boom") (some "w") (some "s") ⟨none⟩ (Or.inl rfl) rfl
  simpa [jsName] using h

/-! ### The retry loop under an always-failing unit of work. -/

theorem runWithRetryGo_allFail {α : Type} (fn : Nat → List TEvent × Except JsError α)
    (iname sid : Option String) (err : Nat → JsError) (m : Int) :
    ∀ (n a fuel : Nat) (lastError : Option JsError),
      1 ≤ a → (a : Int) + n = m → n + 1 ≤ fuel →
      (∀ j, a ≤ j → (j : Int) ≤ m → fn j = ([], .error (err j))) →
      runWithRetryGo fn .sink iname sid m a fuel lastError =
        ((List.range' a n).flatMap
            (fun j => [TEvent.retry_attempt_started (jsName iname) sid j,
                       TEvent.retry_attempt_failed (jsName iname) sid j (err j)])
          ++ [TEvent.retry_attempt_started (jsName iname) sid (a + n)],
         if 1 < m then .error (.retryExhaustedError (retryMsg iname sid m))
         else .error (err (a + n))) := by
  intro n
  induction n with
  | zero =>
      intro a fuel lastError ha h2 h3 h4
      cases fuel with
      | zero => omega
      | succ f =>
          have hfn := h4 a le_rfl (by omega)
          have hne : ¬ ((a : Int) > m) := by omega
          have heq : ((a : Int) = m) := by omega
          by_cases hm : m > 1 <;>
            simp [runWithRetryGo, hne, hfn, heq, hm, emitIf]
  | succ n ih =>
      intro a fuel lastError ha h2 h3 h4
      cases fuel with
      | zero => omega
      | succ f =>
          have hfn := h4 a le_rfl (by omega)
          have hne : ¬ ((a : Int) > m) := by omega
          have hneq : ¬ ((a : Int) = m) := by omega
          have hrec := ih (a + 1) f (some (err a)) (by omega) (by push_cast at h2 ⊢; omega)
            (by omega) (fun j hj hjm => h4 j (by omega) hjm)
          have hsum : a + (n + 1) = (a + 1) + n := by omega
          simp [runWithRetryGo, hne, hfn, hneq, emitIf, hrec, List.range'_succ, hsum,
            List.append_assoc]

theorem countP_retry_blocks (iname : String) (sid : Option String) (err : Nat → JsError) :
    ∀ l : List Nat,
      ((l.flatMap fun j => [TEvent.retry_attempt_started iname sid j,
          TEvent.retry_attempt_failed iname sid j (err j)]).countP isRetryStarted = l.length)
      ∧ ((l.flatMap fun j => [TEvent.retry_attempt_started iname sid j,
          TEvent.retry_attempt_failed iname sid j (err j)]).countP isRetryFailed = l.length) := by
  intro l
  induction l with
  | nil => simp
  | cons a l ih =>
      simp [List.countP_cons, isRetryStarted, isRetryFailed, ih.1, ih.2]

theorem runWithRetry_allFail_eq {α : Type} (k : Int) (hk : 1 ≤ k)
    (fn : Nat → List TEvent × Except JsError α) (err : Nat → JsError)
    (iname sid : Option String)
    (hfn : ∀ j : Nat, 1 ≤ j → (j : Int) ≤ k → fn j = ([], .error (err j))) :
    runWithRetry fn .sink iname sid (some ⟨some k⟩) =
      ((List.range' 1 (k.toNat - 1)).flatMap
          (fun j => [TEvent.retry_attempt_started (jsName iname) sid j,
                     TEvent.retry_attempt_failed (jsName iname) sid j (err j)])
        ++ [TEvent.retry_attempt_started (jsName iname) sid (1 + (k.toNat - 1))],
       if 1 < k then .error (.retryExhaustedError (retryMsg iname sid k))
       else .error (err (1 + (k.toNat - 1)))) := by
  have hm : attemptBound (some ⟨some k⟩) = k := by
    simp [attemptBound, show k > 0 by omega]
  have hstart : runWithRetry fn .sink iname sid (some ⟨some k⟩) =
      runWithRetryGo fn .sink iname sid k 1 (k.toNat + 1) none := by
    simp [runWithRetry, hm]
  rw [hstart]
  exact runWithRetryGo_allFail fn iname sid err k (k.toNat - 1) 1 (k.toNat + 1) none
    le_rfl (by push_cast; omega) (by omega) hfn

/-! ### Claim C2: exhaustive retry telemetry and terminal error. -/

/-- C2: an always-failing unit of work under a policy with `maxAttemps = k`
(`k ≥ 1`) produces exactly `k` `retry_attempt_started` events and exactly
`k-1` `retry_attempt_failed` events, and then fails with a
`RetryExhaustedError` when `k > 1`, or with the original unwrapped error
when `k = 1`. -/
theorem runWithRetry_allFail_counts (k : Int) (hk : 1 ≤ k)
    (fn : Nat → List TEvent × Except JsError Value) (err : Nat → JsError)
    (iname sid : Option String)
    (hfn : ∀ j : Nat, 1 ≤ j → (j : Int) ≤ k → fn j = ([], .error (err j))) :
    ((runWithRetry fn .sink iname sid (some ⟨some k⟩)).1.countP isRetryStarted = k.toNat)
    ∧ ((runWithRetry fn .sink iname sid (some ⟨some k⟩)).1.countP isRetryFailed
        = k.toNat - 1)
    ∧ ((runWithRetry fn .sink iname sid (some ⟨some k⟩)).2 =
        if 1 < k then .error (.retryExhaustedError (retryMsg iname sid k))
        else .error (err 1)) := by
  have h := runWithRetry_allFail_eq k hk fn err iname sid hfn
  have hb := countP_retry_blocks (jsName iname) sid err (List.range' 1 (k.toNat - 1))
  refine ⟨?_, ?_, ?_⟩
  · rw [h]
    simp [List.countP_append, hb.1, List.countP_cons, isRetryStarted]
    omega
  · rw [h]
    simp [List.countP_append, hb.2, List.countP_cons, isRetryFailed]
  · rw [h]
    by_cases h1 : 1 < k
    · simp [h1]
    · have hk1 : k = 1 := by omega
      subst hk1
      simp

/-- Witness for C2: three always-failing attempts yield three started
events, two failed events, and a `RetryExhaustedError`. -/
theorem runWithRetry_allFail_counts_witness :
    ((runWithRetry (fun _ => ([], .error (.userError "boom")) :
          Nat → List TEvent × Except JsError Value)
        .sink (some "w") (some "s") (some ⟨some 3⟩)).1.countP isRetryStarted = 3)
    ∧ ((runWithRetry (fun _ => ([], .error (.userError "boom")) :
          Nat → List TEvent × Except JsError Value)
        .sink (some "w") (some "s") (some ⟨some 3⟩)).1.countP isRetryFailed = 2)
    ∧ ((runWithRetry (fun _ => ([], .error (.userError "boom")) :
          Nat → List TEvent × Except JsError Value)
        .sink (some "w") (some "s") (some ⟨some 3⟩)).2 =
        .error (.retryExhaustedError "Step \"s\" in intent \"w\" failed retry after 3 attempts")) := by
  have h := runWithRetry_allFail_counts 3 (by decide)
    (fun _ => ([], .error (.userError "boom")) :
      Nat → List TEvent × Except JsError Value)
    (fun _ => .userError "boom") (some "w") (some "s")
    (fun j hj hjm => rfl)
  refine ⟨by simpa using h.1, by simpa using h.2.1, ?_⟩
  have h3 := h.2.2
  simp only [show ((1 : Int) < 3) = True by simp, if_true] at h3
  simpa [retryMsg] using h3

/-! ### Claim C6: the exhausted-retry error and its (discarded) cause. -/

/-- Counterexample for C6: two runs whose underlying failures differ
(`boom-one` vs `boom-two`) exhaust a 2-attempt policy and throw the *same*
`RetryExhaustedError`, whose message mentions neither cause — the last
underlying cause is discarded, not retained. -/
theorem retryExhausted_discards_cause_cex :
    ((runWithRetry (fun _ => ([], .error (.userError "boom-one")) :
          Nat → List TEvent × Except JsError Value)
        .sink (some "w") (some "s") (some ⟨some 2⟩)).2 =
      (runWithRetry (fun _ => ([], .error (.userError "boom-two")) :
          Nat → List TEvent × Except JsError Value)
        .sink (some "w") (some "s") (some ⟨some 2⟩)).2)
    ∧ ((runWithRetry (fun _ => ([], .error (.userError "boom-one")) :
          Nat → List TEvent × Except JsError Value)
        .sink (some "w") (some "s") (some ⟨some 2⟩)).2 =
      .error (.retryExhaustedError
        "Step \"s\" in intent \"w\" failed retry after 2 attempts")) := by
  exact ⟨rfl, rfl⟩

/-- C6 (amended): when a policy with `maxAttemps = k > 1` exhausts all
attempts, the thrown failure is a `RetryExhaustedError` whose message
carries the workflow and step identity and the attempt count, but the last
underlying cause is discarded: the thrown error is identical for any two
underlying failure sequences. -/
theorem runWithRetry_exhaust_wraps (k : Int) (hk : 1 < k) (n s : String)
    (hn : n ≠ "") (hs : s ≠ "")
    (fn1 fn2 : Nat → List TEvent × Except JsError Value)
    (err1 err2 : Nat → JsError)
    (h1 : ∀ j : Nat, 1 ≤ j → (j : Int) ≤ k → fn1 j = ([], .error (err1 j)))
    (h2 : ∀ j : Nat, 1 ≤ j → (j : Int) ≤ k → fn2 j = ([], .error (err2 j))) :
    ((runWithRetry fn1 .sink (some n) (some s) (some ⟨some k⟩)).2 =
      .error (.retryExhaustedError
        s!"Step \"{s}\" in intent \"{n}\" failed retry after {k} attempts"))
    ∧ ((runWithRetry fn1 .sink (some n) (some s) (some ⟨some k⟩)).2 =
      (runWithRetry fn2 .sink (some n) (some s) (some ⟨some k⟩)).2) := by
  have ha := runWithRetry_allFail_eq k (by omega) fn1 err1 (some n) (some s) h1
  have hb := runWithRetry_allFail_eq k (by omega) fn2 err2 (some n) (some s) h2
  constructor
  · rw [ha]
    simp [hk, retryMsg, hn, hs]
  · rw [ha, hb]
    simp [hk]

/-- Witness for C6 (amended): concrete exhaustion at `k = 2`. -/
theorem runWithRetry_exhaust_wraps_witness :
    ((runWithRetry (fun _ => ([], .error (.userError "cause-a")) :
          Nat → List TEvent × Except JsError Value)
        .sink (some "wf") (some "st") (some ⟨some 2⟩)).2 =
      .error (.retryExhaustedError
        "Step \"st\" in intent \"wf\" failed retry after 2 attempts"))
    ∧ ((runWithRetry (fun _ => ([], .error (.userError "cause-a")) :
          Nat → List TEvent × Except JsError Value)
        .sink (some "wf") (some "st") (some ⟨some 2⟩)).2 =
      (runWithRetry (fun _ => ([], .error (.userError "cause-b")) :
          Nat → List TEvent × Except JsError Value)
        .sink (some "wf") (some "st") (some ⟨some 2⟩)).2) := by
  have h := runWithRetry_exhaust_wraps 2 (by decide) "wf" "st" (by decide) (by decide)
    (fun _ => ([], .error (.userError "cause-a")))
    (fun _ => ([], .error (.userError "cause-b")))
    (fun _ => .userError "cause-a") (fun _ => .userError "cause-b")
    (fun j hj hjm => rfl) (fun j hj hjm => rfl)
  exact ⟨h.1, h.2⟩

/-! ### Compiler lemmas (claims C7, C8). -/

theorem validateSteps_ok_val (name : String) :
    ∀ (l : List StepDesc) (acc ids : List String),
      validateSteps name l acc = .ok ids → ids = acc ++ l.map (fun st => st.id) := by
  intro l
  induction l with
  | nil =>
      intro acc ids h
      simp only [validateSteps, Except.ok.injEq] at h
      simp [h.symm]
  | cons st rest ih =>
      intro acc ids h
      simp only [validateSteps] at h
      split_ifs at h with h1 h2 h3
      have := ih (acc ++ [st.id]) ids h
      simpa [List.append_assoc] using this

theorem validateSteps_error_name (name : String) :
    ∀ (l : List StepDesc) (acc : List String) (e : JsError),
      validateSteps name l acc = .error e → errName e = "Error" := by
  intro l
  induction l with
  | nil =>
      intro acc e h
      simp [validateSteps] at h
  | cons st rest ih =>
      intro acc e h
      simp only [validateSteps] at h
      split_ifs at h with h1 h2 h3
      · cases h; rfl
      · cases h; rfl
      · cases h; rfl
      · exact ih (acc ++ [st.id]) e h

theorem validateSteps_ok_iff (name : String) :
    ∀ (l : List StepDesc) (acc : List String),
      (∃ ids, validateSteps name l acc = .ok ids) ↔
        ((∀ st ∈ l, st.id ≠ "" ∧ st.hasRun = true)
          ∧ (l.map (fun st => st.id)).Nodup
          ∧ (∀ st ∈ l, st.id ∉ acc)) := by
  intro l
  induction l with
  | nil => intro acc; simp [validateSteps]
  | cons st rest ih =>
      intro acc
      constructor
      · rintro ⟨ids, h⟩
        simp only [validateSteps] at h
        split_ifs at h with h1 h2 h3
        have hr := (ih (acc ++ [st.id])).mp ⟨ids, h⟩
        refine ⟨?_, ?_, ?_⟩
        · intro x hx
          rcases List.mem_cons.mp hx with rfl | hx
          · exact ⟨h1, by simpa using h3⟩
          · exact hr.1 x hx
        · simp only [List.map_cons, List.nodup_cons]
          refine ⟨?_, hr.2.1⟩
          intro hmem
          rcases List.mem_map.mp hmem with ⟨y, hy, hyid⟩
          exact hr.2.2 y hy (by simp [hyid])
        · intro x hx
          rcases List.mem_cons.mp hx with rfl | hx
          · exact h2
          · intro hc
            exact hr.2.2 x hx (by simp [hc])
      · rintro ⟨hgood, hnodup, hacc⟩
        have h1 : st.id ≠ "" := (hgood st (by simp)).1
        have h3 : st.hasRun = true := (hgood st (by simp)).2
        have h2 : st.id ∉ acc := hacc st (by simp)
        rw [List.map_cons, List.nodup_cons] at hnodup
        have hr : (∃ ids, validateSteps name rest (acc ++ [st.id]) = .ok ids) := by
          refine (ih (acc ++ [st.id])).mpr ⟨?_, hnodup.2, ?_⟩
          · exact fun x hx => hgood x (by simp [hx])
          · intro x hx
            simp only [List.mem_append, List.mem_singleton]
            push_neg
            refine ⟨hacc x (by simp [hx]), ?_⟩
            intro hc
            exact hnodup.1 (List.mem_map.mpr ⟨x, hx, hc⟩)
        rcases hr with ⟨ids, hids⟩
        refine ⟨ids, ?_⟩
        simp only [validateSteps]
        rw [if_neg h1, if_neg h2, if_neg (by simp [h3])]
        exact hids

/-! ### Claim C7: when compilation fails. -/

/-- Counterexample for C7: at the concrete description with an empty name,
`defineIntent` fails with a plain `Error` (runtime name `"Error"`), not with
a `ConfigurationError` — the codebase defines no such class (the source
comments call it a later refactor). -/
theorem defineIntent_plain_error_cex :
    defineIntent (some ⟨some "", some [⟨"a", true, none⟩], none⟩) =
      .error (.jsError "Intent must have a non-empty name")
    ∧ errName (.jsError "Intent must have a non-empty name") = "Error"
    ∧ "Error" ≠ "ConfigurationError" := by
  exact ⟨rfl, rfl, by decide⟩

/-- C7 (amended): `defineIntent` succeeds exactly when the description is
well-formed, nonempty-named, has a nonempty step array whose steps all have
ids and run functions, with no duplicate ids, and whose resolved entry step
id matches a step; and every failure it produces is a plain `Error` (there
is no `ConfigurationError` class). -/
theorem defineIntent_compile_iff (config : Option IntentConfig) :
    ((∃ wf, defineIntent config = .ok wf) ↔
      ∃ cfg name s0 rest, config = some cfg ∧ cfg.name = some name ∧ name ≠ ""
        ∧ cfg.steps = some (s0 :: rest)
        ∧ (∀ st ∈ s0 :: rest, st.id ≠ "" ∧ st.hasRun = true)
        ∧ ((s0 :: rest).map (fun st => st.id)).Nodup
        ∧ cfg.entryStepId.getD s0.id ∈ (s0 :: rest).map (fun st => st.id))
    ∧ (∀ e, defineIntent config = .error e → errName e = "Error") := by
  constructor
  · constructor
    · rintro ⟨wf, h⟩
      rcases config with _ | cfg
      · simp [defineIntent] at h
      rcases hname : cfg.name with _ | name
      · simp [defineIntent, hname] at h
      by_cases hne : name = ""
      · simp [defineIntent, hname, hne] at h
      rcases hsteps : cfg.steps with _ | steps
      · simp [defineIntent, hname, hne, hsteps] at h
      rcases steps with _ | ⟨s0, rest⟩
      · simp [defineIntent, hname, hne, hsteps] at h
      rcases hv : validateSteps name (s0 :: rest) [] with e | ids
      · simp [defineIntent, hname, hne, hsteps, hv] at h
      have hconds := (validateSteps_ok_iff name (s0 :: rest) []).mp ⟨ids, hv⟩
      have hids := validateSteps_ok_val name (s0 :: rest) [] ids hv
      by_cases hentry : cfg.entryStepId.getD s0.id ∈ ids
      · refine ⟨cfg, name, s0, rest, rfl, hname, hne, hsteps, hconds.1, hconds.2.1, ?_⟩
        simpa [hids] using hentry
      · simp [defineIntent, hname, hne, hsteps, hv, hentry] at h
    · rintro ⟨cfg, name, s0, rest, rfl, hname, hne, hsteps, hgood, hnodup, hentry⟩
      obtain ⟨ids, hv⟩ := (validateSteps_ok_iff name (s0 :: rest) []).mpr
        ⟨hgood, hnodup, by simp⟩
      have hids := validateSteps_ok_val name (s0 :: rest) [] ids hv
      refine ⟨⟨name, s0 :: rest, cfg.entryStepId.getD s0.id⟩, ?_⟩
      have hentry' : cfg.entryStepId.getD s0.id ∈ ids := by simpa [hids] using hentry
      simp [defineIntent, hname, hne, hsteps, hv, hentry']
  · intro e h
    rcases config with _ | cfg
    · simp only [defineIntent, Except.error.injEq] at h
      simp [← h, errName]
    rcases hname : cfg.name with _ | name
    · simp only [defineIntent, hname, Except.error.injEq] at h
      simp [← h, errName]
    by_cases hne : name = ""
    · simp only [defineIntent, hname, hne, if_true, Except.error.injEq] at h
      simp [← h, errName]
    rcases hsteps : cfg.steps with _ | steps
    · simp [defineIntent, hname, hne, hsteps, Except.error.injEq] at h
      simp [← h, errName]
    rcases steps with _ | ⟨s0, rest⟩
    · simp [defineIntent, hname, hne, hsteps, Except.error.injEq] at h
      simp [← h, errName]
    rcases hv : validateSteps name (s0 :: rest) [] with e' | ids
    · simp [defineIntent, hname, hne, hsteps, hv, Except.error.injEq] at h
      rw [← h]
      exact validateSteps_error_name name (s0 :: rest) [] e' hv
    by_cases hentry : cfg.entryStepId.getD s0.id ∈ ids
    · simp [defineIntent, hname, hne, hsteps, hv, hentry] at h
    · simp [defineIntent, hname, hne, hsteps, hv, hentry, Except.error.injEq] at h
      simp [← h, errName]

/-- Witness for C7: a valid one-step description compiles, and a failing
description produces an error whose runtime name is `"Error"`. -/
theorem defineIntent_compile_iff_witness :
    (∃ wf, defineIntent
        (some ⟨some "greet-intent", some [⟨"greet", true, none⟩], some "greet"⟩) =
      .ok wf)
    ∧ errName (JsError.jsError "Intent must have a non-empty name") = "Error" := by
  constructor
  · exact (defineIntent_compile_iff
      (some ⟨some "greet-intent", some [⟨"greet", true, none⟩], some "greet"⟩)).1.mpr
      ⟨⟨some "greet-intent", some [⟨"greet", true, none⟩], some "greet"⟩,
        "greet-intent", ⟨"greet", true, none⟩, [], rfl, rfl, by decide, rfl,
        by decide, by decide, by decide⟩
  · exact (defineIntent_compile_iff
      (some ⟨some "", some [⟨"a", true, none⟩], none⟩)).2
      (JsError.jsError "Intent must have a non-empty name") rfl

/-! ### Claim C8: freeze and defensive copy. -/

theorem derefObj_setArray (st : HStore) (r : Nat) (v : List Nat) :
    derefObj (setArray st r v) = derefObj st := rfl

theorem defineIntentH_ok_facts (st : HStore) (name : Option String)
    (stepsRef : Nat) (entry : Option String) (st' : HStore) (wf : HWorkflow)
    (h : defineIntentH st name stepsRef entry = .ok (st', wf)) :
    ∃ refs, st.arrays.get? stepsRef = some refs
      ∧ st' = { st with arrays := st.arrays ++ [refs] }
      ∧ wf.stepsRef = st.arrays.length := by
  unfold defineIntentH at h
  split at h
  · simp at h
  split at h
  · simp at h
  split at h
  · simp at h
  next refs harr =>
    split at h
    · simp at h
    next r0 rs =>
      split at h
      · simp at h
      simp only [] at h
      split at h
      · rw [Except.ok.injEq, Prod.mk.injEq] at h
        exact ⟨r0 :: rs, harr, h.1.symm, by rw [← h.2]⟩
      · simp at h

/-- Counterexample for C8: the compiled workflow is *not* deep-frozen nor a
deep copy — after compiling, mutating the caller's step object (shared by
reference with the compiled workflow's sliced array) changes the compiled
workflow's observed step fields: the step id flips from `"a"` to `"b"`. -/
theorem defineIntentH_deep_freeze_cex :
    defineIntentH ⟨[[0]], [⟨"a", true, none⟩]⟩ (some "w") 0 none =
      .ok (⟨[[0], [0]], [⟨"a", true, none⟩]⟩, ⟨"w", 1, "a"⟩)
    ∧ wfStepsView ⟨[[0], [0]], [⟨"a", true, none⟩]⟩ ⟨"w", 1, "a"⟩ =
        [⟨"a", true, none⟩]
    ∧ wfStepsView (setObj ⟨[[0], [0]], [⟨"a", true, none⟩]⟩ 0 ⟨"b", true, none⟩)
        ⟨"w", 1, "a"⟩ = [⟨"b", true, none⟩]
    ∧ ([⟨"b", true, none⟩] : List StepDesc) ≠ [⟨"a", true, none⟩] := by
  exact ⟨rfl, rfl, rfl, by decide⟩

/-- C8 (amended): the compiled workflow's scalar fields are copied values
and its step array is a fresh shallow copy, so *structural* mutation of the
caller's steps array after compiling (replacing its contents in any way)
does not change the compiled workflow's observed step sequence; mutating a
shared step object, however, does (see the counterexample). -/
theorem defineIntentH_shallow_copy (st : HStore) (name : Option String)
    (stepsRef : Nat) (entry : Option String) (st' : HStore) (wf : HWorkflow)
    (h : defineIntentH st name stepsRef entry = .ok (st', wf)) :
    ∀ v : List Nat,
      wfStepsView (setArray st' stepsRef v) wf = wfStepsView st' wf := by
  obtain ⟨refs, harr, hst', hwf⟩ := defineIntentH_ok_facts st name stepsRef entry st' wf h
  intro v
  have hlt : stepsRef < st.arrays.length := by
    have := List.getElem?_eq_some.mp (by simpa using harr)
    exact this.1
  have hne : stepsRef ≠ wf.stepsRef := by omega
  subst hst'
  simp only [wfStepsView, derefObj_setArray]
  have harrs : (setArray { st with arrays := st.arrays ++ [refs] } stepsRef v).arrays =
      ({ st with arrays := st.arrays ++ [refs] } : HStore).arrays.set stepsRef v := rfl
  rw [harrs, List.get?_eq_getElem?, List.get?_eq_getElem?, List.getElem?_set_ne hne]

/-- Witness for C8 (amended): emptying the caller's array after compiling
leaves the compiled workflow's step view unchanged. -/
theorem defineIntentH_shallow_copy_witness :
    wfStepsView (setArray ⟨[[0], [0]], [⟨"a", true, none⟩]⟩ 0 [])
        ⟨"w", 1, "a"⟩ =
      wfStepsView ⟨[[0], [0]], [⟨"a", true, none⟩]⟩ ⟨"w", 1, "a"⟩ := by
  exact defineIntentH_shallow_copy ⟨[[0]], [⟨"a", true, none⟩]⟩ (some "w") 0 none
    ⟨[[0], [0]], [⟨"a", true, none⟩]⟩ ⟨"w", 1, "a"⟩ rfl []

/-! ### Claim C4: fallback routing. -/

/-- C4: the concrete two-step fallback workflow succeeds with output `"ok"`
and its trace shows `a` failing, then `b` starting and succeeding; and in
general, when a failing step falls back to a step `F` that exists and
succeeds, `runStepWithFallback` reports success with `F`'s output and the
step positionally after `F` as the next step. -/
theorem fallback_scenario_and_advance :
    (Dist.runIntent fallbackIntent true 2 =
      some (⟨"fallback-intent", true, Value.str "ok", none,
        [TEvent.intent_started "fallback-intent",
         TEvent.step_started "fallback-intent" "a",
         TEvent.step_finished "fallback-intent" "a" false
           (some (JsError.userError "primary blew up")),
         TEvent.step_started "fallback-intent" "b",
         TEvent.step_finished "fallback-intent" "b" true none,
         TEvent.intent_finished "fallback-intent" true none]⟩,
        [TEvent.intent_started "fallback-intent",
         TEvent.step_started "fallback-intent" "a",
         TEvent.retry_attempt_started "fallback-intent" (some "a") 1,
         TEvent.step_finished "fallback-intent" "a" false
           (some (JsError.userError "primary blew up")),
         TEvent.step_started "fallback-intent" "b",
         TEvent.retry_attempt_started "fallback-intent" (some "b") 1,
         TEvent.step_finished "fallback-intent" "b" true none,
         TEvent.intent_finished "fallback-intent" true none]))
    ∧ (∀ (pre post : List StepConfig) (name : String) (telB : Bool)
        (step F : StepConfig) (fid : String) (e : JsError) (v : Value)
        (evs1 evs2 : List TEvent),
        step.fallbackTo = some fid →
        (pre ++ F :: post).find? (fun s => s.id == fid) = some F →
        (∀ p ∈ pre, p.id ≠ F.id) →
        Dist.stepPipeline telB name step = (evs1, .error e) →
        Dist.stepPipeline telB name F = (evs2, .ok v) →
        (Dist.runStepWithFallback (pre ++ F :: post) name telB step).2.2 =
          ⟨true, some v, post.head?.map (fun s => s.id), none⟩) := by
  constructor
  · rfl
  · intro pre post name telB step F fid e v evs1 evs2 hfb hfind hpre hprim hfbp
    have hidx : jsFindIndex (fun s => s.id == F.id) (pre ++ F :: post) =
        (pre.length : Int) :=
      jsFindIndex_append_cons _ pre post F (by simp) (fun a ha => by simp [hpre a ha])
    simp only [Dist.runStepWithFallback, hprim, hfb, hfind, hfbp]
    simp [hidx, jsGetArr_after]

/-- Witness for C4: the general next-step property instantiated on the
concrete fallback workflow (fallback `b` sits last, so the next step id is
`none`). -/
theorem fallback_scenario_and_advance_witness :
    (Dist.runStepWithFallback fallbackIntent.steps "fallback-intent" true
      ⟨"a", fun _ => ⟨true, .error (.userError "primary blew up")⟩,
        none, none, some "b"⟩).2.2 =
      ⟨true, some (Value.str "ok"), none, none⟩ := by
  have h := fallback_scenario_and_advance.2
    [⟨"a", fun _ => ⟨true, .error (.userError "primary blew up")⟩, none, none, some "b"⟩]
    [] "fallback-intent" true
    ⟨"a", fun _ => ⟨true, .error (.userError "primary blew up")⟩, none, none, some "b"⟩
    (okStep "b" "ok") "b" (.userError "primary blew up") (Value.str "ok")
    [TEvent.retry_attempt_started "fallback-intent" (some "a") 1]
    [TEvent.retry_attempt_started "fallback-intent" (some "b") 1]
    rfl rfl
    (by intro p hp; rcases List.mem_singleton.mp hp with rfl; decide)
    rfl rfl
  exact h

/-! ### Claim C9: the two engines are not observably equivalent. -/

/-- C9: on the two-step always-succeeding workflow (the repo's own
multi-step test input), the TypeScript engine runs only the entry step and
returns its output `"first"` with one step pair in the trace, while the
compiled engine runs both steps and returns `"second"` with two step pairs
— the two `runIntent`s are not observably equivalent. -/
theorem engines_disagree_on_two_steps :
    (EngineTs.runIntent twoStepIntent false).1.output = Value.str "first"
    ∧ ((Dist.runIntent twoStepIntent false 2).map fun p => p.1.output) =
        some (Value.str "second")
    ∧ (EngineTs.runIntent twoStepIntent false).1.trace.countP isStepEvent = 2
    ∧ ((Dist.runIntent twoStepIntent false 2).map
        fun p => p.1.trace.countP isStepEvent) = some 4 := by
  exact ⟨rfl, rfl, rfl, rfl⟩

/-! ### Claim C1, counterexample part: output of an `undefined`-tailed run. -/

/-- Counterexample for C1: in the two-step workflow whose steps all succeed
with outputs `1` and then `undefined`, the run's output is `1` — the
previous defined output — not the last step's output (`undefined`), because
the loop keeps `lastOutput` when a step's output is `undefined`. -/
theorem dist_output_not_last_cex :
    ((Dist.runIntent undefTailIntent false 2).map fun p => p.1.output) =
      some (Value.num 1)
    ∧ ((Dist.runIntent undefTailIntent false 2).map fun p => p.1.success) =
      some true
    ∧ (undefTailIntent.steps.getLast?.map fun s => (s.run 1).outcome) =
      some (.ok Value.undef)
    ∧ Value.num 1 ≠ Value.undef := by
  refine ⟨rfl, rfl, rfl, by decide⟩

/-! ### Linear execution of clean steps (claim C1). -/

theorem stepPipeline_clean (telB : Bool) (name : String) (s : StepConfig) (v : Value)
    (hr : s.retry = none) (ht : s.timeoutMs = none)
    (hok : (s.run 1).outcome = .ok v) :
    Dist.stepPipeline telB name s =
      (emitIf (telArgOfBool telB) [.retry_attempt_started name (some s.id) 1], .ok v) := by
  have hto : ∀ tel, runWithTimeout (s.run 1) s.timeoutMs tel
      (some name) (some s.id) = ([], (s.run 1).outcome) := by
    intro tel; rw [ht]; rfl
  cases telB <;>
    simp [Dist.stepPipeline, runWithRetry, hr, attemptBound, runWithRetryGo, hto,
      hok, emitIf, jsName, telArgOfBool]

theorem runStep_clean (pre post : List StepConfig) (s : StepConfig) (name : String)
    (telB : Bool) (v : Value)
    (hr : s.retry = none) (ht : s.timeoutMs = none) (_hfb : s.fallbackTo = none)
    (hok : (s.run 1).outcome = .ok v)
    (hpre : ∀ p ∈ pre, p.id ≠ s.id) :
    Dist.runStepWithFallback (pre ++ s :: post) name telB s =
      ([TEvent.step_started name s.id, TEvent.step_finished name s.id true none],
       sinkOf telB [TEvent.step_started name s.id,
         TEvent.retry_attempt_started name (some s.id) 1,
         TEvent.step_finished name s.id true none],
       ⟨true, some v, post.head?.map (fun st => st.id), none⟩) := by
  have hp := stepPipeline_clean telB name s v hr ht hok
  have hidx : jsFindIndex (fun st => st.id == s.id) (pre ++ s :: post) =
      (pre.length : Int) :=
    jsFindIndex_append_cons _ pre post s (by simp) (fun a ha => by simp [hpre a ha])
  simp only [Dist.runStepWithFallback, hp]
  cases telB <;> simp [hidx, jsGetArr_after, sinkOf, emitIf, telArgOfBool]

theorem runLoop_linear (name : String) (telB : Bool) (vOf : StepConfig → Value) :
    ∀ (post pre : List StepConfig) (s : StepConfig) (fuel : Nat) (acc : Value),
      (((pre ++ s :: post).map fun st => st.id).Nodup) →
      (∀ st ∈ pre ++ s :: post, st.retry = none ∧ st.timeoutMs = none
        ∧ st.fallbackTo = none ∧ st.id ≠ "") →
      (∀ st ∈ pre ++ s :: post, (st.run 1).outcome = .ok (vOf st)) →
      post.length + 1 ≤ fuel →
      Dist.runLoop (pre ++ s :: post) name telB fuel (some s.id) acc =
        some ((s :: post).flatMap (fun st => [TEvent.step_started name st.id,
                TEvent.step_finished name st.id true none])
              ++ [TEvent.intent_finished name true none],
          sinkOf telB ((s :: post).flatMap (fun st => [TEvent.step_started name st.id,
                TEvent.retry_attempt_started name (some st.id) 1,
                TEvent.step_finished name st.id true none])
              ++ [TEvent.intent_finished name true none]),
          true,
          (s :: post).foldl (fun a st => if vOf st = Value.undef then a else vOf st) acc,
          none) := by
  intro post
  induction post with
  | nil =>
      intro pre s fuel acc hnodup hclean hok hfuel
      cases fuel with
      | zero => omega
      | succ f =>
          have hs := hclean s (by simp)
          have hpre := nodup_split_pre rfl hnodup
          have hfind := find?_append_cons (fun st => st.id == s.id) pre [] s
            (by simp) (fun a ha => by simp [hpre a ha])
          have hstep := runStep_clean pre [] s name telB (vOf s)
            hs.1 hs.2.1 hs.2.2.1 (hok s (by simp)) hpre
          simp only [Dist.runLoop, hfind, hstep]
          simp [Dist.runLoop, Dist.nextLast, hs.2.2.2]
          cases telB <;> simp [sinkOf]
  | cons q post' ih =>
      intro pre s fuel acc hnodup hclean hok hfuel
      cases fuel with
      | zero => omega
      | succ f =>
          have hs := hclean s (by simp)
          have hpre := nodup_split_pre rfl hnodup
          have hfind := find?_append_cons (fun st => st.id == s.id) pre (q :: post') s
            (by simp) (fun a ha => by simp [hpre a ha])
          have hstep := runStep_clean pre (q :: post') s name telB (vOf s)
            hs.1 hs.2.1 hs.2.2.1 (hok s (by simp)) hpre
          have hre : pre ++ s :: q :: post' = (pre ++ [s]) ++ q :: post' := by simp
          have hrec := ih (pre ++ [s]) q f
            (if vOf s = Value.undef then acc else vOf s)
            (by rw [← hre]; exact hnodup)
            (by rw [← hre]; exact hclean)
            (by rw [← hre]; exact hok)
            (by simpa using Nat.le_of_succ_le_succ hfuel)
          rw [hre] at hfind hstep ⊢
          simp only [Dist.runLoop, hfind, hstep]
          rw [← hre] at hrec
          simp [hs.2.2.2, Dist.nextLast, List.append_assoc]
          cases telB <;> simp [sinkOf, hrec]

/-- C1 (amended): a workflow of N clean linear steps (no retry, no timeout,
no fallback) whose steps all succeed runs every step once in declared order
— the trace is exactly `intent_started`, one `step_started`/`step_finished
(success=true)` pair per step in order, then `intent_finished(success=true)`
— and the run's output is the last step output that is not `undefined`
(steps succeeding with `undefined` leave the previous output in place). -/
theorem dist_linear_run (intent : Intent) (telB : Bool) (fuel : Nat)
    (vOf : StepConfig → Value) (s0 : StepConfig) (rest : List StepConfig)
    (hsteps : intent.steps = s0 :: rest)
    (hnodup : ((s0 :: rest).map fun st => st.id).Nodup)
    (hclean : ∀ st ∈ s0 :: rest, st.retry = none ∧ st.timeoutMs = none
      ∧ st.fallbackTo = none ∧ st.id ≠ "")
    (hok : ∀ st ∈ s0 :: rest, (st.run 1).outcome = .ok (vOf st))
    (hentry : intent.entryStepId.getD s0.id = s0.id)
    (hfuel : rest.length + 1 ≤ fuel) :
    Dist.runIntent intent telB fuel =
      some (⟨intent.name, true,
        (s0 :: rest).foldl (fun a st => if vOf st = Value.undef then a else vOf st)
          Value.undef,
        none,
        TEvent.intent_started intent.name ::
          ((s0 :: rest).flatMap (fun st => [TEvent.step_started intent.name st.id,
              TEvent.step_finished intent.name st.id true none])
            ++ [TEvent.intent_finished intent.name true none])⟩,
        sinkOf telB (TEvent.intent_started intent.name ::
          ((s0 :: rest).flatMap (fun st => [TEvent.step_started intent.name st.id,
              TEvent.retry_attempt_started intent.name (some st.id) 1,
              TEvent.step_finished intent.name st.id true none])
            ++ [TEvent.intent_finished intent.name true none]))) := by
  have hloop := runLoop_linear intent.name telB vOf rest [] s0 fuel Value.undef
    (by simpa using hnodup) (by simpa using hclean) (by simpa using hok) hfuel
  have hfind : (s0 :: rest).find? (fun s => s.id == s0.id) = some s0 := by simp
  simp only [Dist.runIntent, hsteps, hentry, hfind]
  simp only [List.nil_append] at hloop
  rw [hloop]
  cases telB <;> simp [sinkOf]

/-- Witness for C1 (amended): the two-step workflow runs both steps, in
order, and returns the second step's output. -/
theorem dist_linear_run_witness :
    Dist.runIntent twoStepIntent true 2 =
      some (⟨"two-step-intent", true, Value.str "second", none,
        [TEvent.intent_started "two-step-intent",
         TEvent.step_started "two-step-intent" "step-1",
         TEvent.step_finished "two-step-intent" "step-1" true none,
         TEvent.step_started "two-step-intent" "step-2",
         TEvent.step_finished "two-step-intent" "step-2" true none,
         TEvent.intent_finished "two-step-intent" true none]⟩,
        [TEvent.intent_started "two-step-intent",
         TEvent.step_started "two-step-intent" "step-1",
         TEvent.retry_attempt_started "two-step-intent" (some "step-1") 1,
         TEvent.step_finished "two-step-intent" "step-1" true none,
         TEvent.step_started "two-step-intent" "step-2",
         TEvent.retry_attempt_started "two-step-intent" (some "step-2") 1,
         TEvent.step_finished "two-step-intent" "step-2" true none,
         TEvent.intent_finished "two-step-intent" true none]) := by
  have h := dist_linear_run twoStepIntent true 2
    (fun st => if st.id == "step-1" then Value.str "first" else Value.str "second")
    (okStep "step-1" "first") [okStep "step-2" "second"]
    rfl (by decide)
    (by
      intro st hst
      rcases List.mem_cons.mp hst with rfl | hst
      · exact ⟨rfl, rfl, rfl, by decide⟩
      rcases List.mem_singleton.mp hst with rfl
      exact ⟨rfl, rfl, rfl, by decide⟩)
    (by
      intro st hst
      rcases List.mem_cons.mp hst with rfl | hst
      · rfl
      rcases List.mem_singleton.mp hst with rfl
      rfl)
    rfl (by decide)
  simpa using h

/-! ### Trace/sink agreement machinery (claim C5). -/

theorem stepEvent_not_intentFinished (e : TEvent) (h : isStepEvent e = true) :
    isIntentFinished e = false := by
  cases e <;> simp_all [isStepEvent, isIntentFinished]

theorem stepEvent_isEngine (e : TEvent) (h : isStepEvent e = true) :
    isEngineEvent e = true := by
  cases e <;> simp_all [isStepEvent, isEngineEvent]

theorem runWithTimeout_events {α : Type} (w : AsyncWork α) (t : Option Int)
    (tel : TelArg) (iname sid : Option String) :
    ∀ e ∈ (runWithTimeout w t tel iname sid).1, isEngineEvent e = false := by
  intro e he
  rcases t with _ | t
  · simp [runWithTimeout] at he
  by_cases h0 : t ≤ 0
  · simp [runWithTimeout, h0] at he
  by_cases h2 : tel = .notCallable
  · simp [runWithTimeout, h0, h2] at he
  rcases hw : w.settlesBeforeTimer with _ | _ <;>
    rcases tel with _ | _ | _ <;>
      simp [runWithTimeout, h0, hw, emitIf] at he <;>
        rcases he with rfl | rfl <;> rfl

theorem runWithRetryGo_events {α : Type} (fn : Nat → List TEvent × Except JsError α)
    (tel : TelArg) (iname sid : Option String) (m : Int)
    (hfn : ∀ a, ∀ e ∈ (fn a).1, isEngineEvent e = false) :
    ∀ (fuel a : Nat) (le : Option JsError),
      ∀ e ∈ (runWithRetryGo fn tel iname sid m a fuel le).1, isEngineEvent e = false := by
  intro fuel
  induction fuel with
  | zero =>
      intro a le e he
      simp [runWithRetryGo] at he
  | succ f ih =>
      intro a le e he
      simp only [runWithRetryGo] at he
      by_cases h1 : (a : Int) > m
      · simp [h1] at he
      by_cases h2 : tel = .notCallable
      · simp [h1, h2] at he
      rcases hf : fn a with ⟨fnEvs, out⟩
      rw [hf] at he
      have hstart : ∀ e ∈ emitIf tel [TEvent.retry_attempt_started (jsName iname) sid a],
          isEngineEvent e = false := by
        intro x hx
        rcases tel <;> simp [emitIf] at hx <;> simp [hx, isEngineEvent]
      have hfna : ∀ e ∈ fnEvs, isEngineEvent e = false := by
        intro x hx; exact hfn a x (by rw [hf]; exact hx)
      rcases out with err | v
      · by_cases h3 : (a : Int) = m
        · by_cases h4 : m > 1 <;>
            · simp [h1, h2, h3, h4] at he
              rcases he with he | he
              · exact hstart e he
              · exact hfna e he
        · simp [h1, h2, h3] at he
          rcases he with he | he | he | he
          · exact hstart e he
          · exact hfna e he
          · rcases tel <;> simp [emitIf] at he <;> simp [he, isEngineEvent]
          · exact ih (a + 1) (some err) e he
      · simp [h1, h2] at he
        rcases he with he | he
        · exact hstart e he
        · exact hfna e he

theorem stepPipeline_events (telB : Bool) (name : String) (st : StepConfig) :
    ∀ e ∈ (Dist.stepPipeline telB name st).1, isEngineEvent e = false := by
  have h : Dist.stepPipeline telB name st =
      runWithRetryGo
        (fun a => runWithTimeout (st.run a) st.timeoutMs (telArgOfBool telB)
          (some name) (some st.id))
        (telArgOfBool telB) (some name) (some st.id)
        (attemptBound st.retry) 1 ((attemptBound st.retry).toNat + 1) none := rfl
  rw [h]
  exact runWithRetryGo_events _ _ _ _ _
    (fun a => runWithTimeout_events (st.run a) st.timeoutMs (telArgOfBool telB)
      (some name) (some st.id)) _ 1 none

theorem filter_notEngine (l : List TEvent) (h : ∀ e ∈ l, isEngineEvent e = false) :
    l.filter isEngineEvent = [] := by
  rw [List.filter_eq_nil_iff]
  intro a ha
  simp [h a ha]

theorem runStepWithFallback_spec (steps : List StepConfig) (name : String)
    (telB : Bool) (step : StepConfig) :
    (∀ e ∈ (Dist.runStepWithFallback steps name telB step).1, isStepEvent e = true)
    ∧ (telB = true →
        (Dist.runStepWithFallback steps name telB step).2.1.filter isEngineEvent =
          (Dist.runStepWithFallback steps name telB step).1) := by
  rcases hp : Dist.stepPipeline telB name step with ⟨evs1, out1⟩
  have hevs1 : ∀ e ∈ evs1, isEngineEvent e = false := by
    intro e he
    exact stepPipeline_events telB name step e (by rw [hp]; exact he)
  rcases out1 with e1 | v1
  · rcases hfb : step.fallbackTo with _ | fid
    · constructor
      · intro e he
        simp only [Dist.runStepWithFallback, hp, hfb] at he
        simp at he
        rcases he with rfl | rfl <;> rfl
      · intro htel
        subst htel
        simp only [Dist.runStepWithFallback, hp, hfb, sinkOf, if_true]
        simp [List.filter_append, filter_notEngine evs1 hevs1, isEngineEvent]
    · rcases hfind : steps.find? (fun s => s.id == fid) with _ | F
      · constructor
        · intro e he
          simp only [Dist.runStepWithFallback, hp, hfb, hfind] at he
          simp at he
          rcases he with rfl | rfl <;> rfl
        · intro htel
          subst htel
          simp only [Dist.runStepWithFallback, hp, hfb, hfind, sinkOf, if_true]
          simp [List.filter_append, filter_notEngine evs1 hevs1, isEngineEvent]
      · rcases hq : Dist.stepPipeline telB name F with ⟨evs2, out2⟩
        have hevs2 : ∀ e ∈ evs2, isEngineEvent e = false := by
          intro e he
          exact stepPipeline_events telB name F e (by rw [hq]; exact he)
        rcases out2 with e2 | v2 <;>
          · constructor
            · intro e he
              simp only [Dist.runStepWithFallback, hp, hfb, hfind, hq] at he
              simp at he
              rcases he with rfl | rfl | rfl | rfl <;> rfl
            · intro htel
              subst htel
              simp only [Dist.runStepWithFallback, hp, hfb, hfind, hq, sinkOf, if_true]
              simp [List.filter_append, filter_notEngine evs1 hevs1,
                filter_notEngine evs2 hevs2, isEngineEvent]
  · constructor
    · intro e he
      simp only [Dist.runStepWithFallback, hp] at he
      simp at he
      rcases he with rfl | rfl <;> rfl
    · intro htel
      subst htel
      simp only [Dist.runStepWithFallback, hp, sinkOf, if_true]
      simp [List.filter_append, filter_notEngine evs1 hevs1, isEngineEvent]

theorem runLoop_invariant (steps : List StepConfig) (name : String) (telB : Bool) :
    ∀ (fuel : Nat) (curr : Option String) (acc : Value)
      (tr sk : List TEvent) (succ : Bool) (out : Value) (err : Option JsError),
      Dist.runLoop steps name telB fuel curr acc = some (tr, sk, succ, out, err) →
      tr.countP isIntentFinished = 1
      ∧ (telB = true → tr = sk.filter isEngineEvent) := by
  intro fuel
  induction fuel with
  | zero =>
      intro curr acc tr sk succ out err h
      rcases curr with _ | cid
      · simp only [Dist.runLoop, Option.some.injEq, Prod.mk.injEq] at h
        obtain ⟨rfl, rfl, -, -, -⟩ := h
        refine ⟨by simp [isIntentFinished], ?_⟩
        intro htel
        subst htel
        simp [sinkOf, isIntentFinished, isEngineEvent]
      · by_cases hc : cid = ""
        · simp only [Dist.runLoop, hc, if_true, Option.some.injEq, Prod.mk.injEq] at h
          obtain ⟨rfl, rfl, -, -, -⟩ := h
          refine ⟨by simp [isIntentFinished], ?_⟩
          intro htel
          subst htel
          simp [sinkOf, isIntentFinished, isEngineEvent]
        · simp [Dist.runLoop, hc] at h
  | succ f ih =>
      intro curr acc tr sk succ out err h
      rcases curr with _ | cid
      · simp only [Dist.runLoop, Option.some.injEq, Prod.mk.injEq] at h
        obtain ⟨rfl, rfl, -, -, -⟩ := h
        refine ⟨by simp [isIntentFinished], ?_⟩
        intro htel
        subst htel
        simp [sinkOf, isIntentFinished, isEngineEvent]
      by_cases hc : cid = ""
      · simp only [Dist.runLoop, hc, if_true, Option.some.injEq, Prod.mk.injEq] at h
        obtain ⟨rfl, rfl, -, -, -⟩ := h
        refine ⟨by simp [isIntentFinished], ?_⟩
        intro htel
        subst htel
        simp [sinkOf, isIntentFinished, isEngineEvent]
      rcases hfind : steps.find? (fun s => s.id == cid) with _ | step
      · simp only [Dist.runLoop, hc, if_neg hc, hfind, Option.some.injEq,
          Prod.mk.injEq] at h
        obtain ⟨rfl, rfl, -, -, -⟩ := h
        refine ⟨by simp [isIntentFinished], ?_⟩
        intro htel
        subst htel
        simp [sinkOf, isIntentFinished, isEngineEvent]
      · have hspec := runStepWithFallback_spec steps name telB step
        rcases hr : Dist.runStepWithFallback steps name telB step with ⟨tr1, sk1r⟩
        rcases sk1r with ⟨sk1, res⟩
        simp only [hr] at hspec
        have htr1 : tr1.countP isIntentFinished = 0 := by
          rw [List.countP_eq_zero]
          intro e he
          simp [stepEvent_not_intentFinished e (hspec.1 e he)]
        simp only [Dist.runLoop, hc, if_neg hc, hfind, hr] at h
        by_cases hsucc : res.success = true
        · rw [if_pos hsucc] at h
          rcases hrec : Dist.runLoop steps name telB f res.nextStepId (Dist.nextLast res acc)
            with _ | ⟨tr2, sk2, succ2, out2, err2⟩ <;> rw [hrec] at h
          · simp at h
          · simp only [Option.some.injEq, Prod.mk.injEq] at h
            obtain ⟨rfl, rfl, -, -, -⟩ := h
            have hih := ih _ _ _ _ _ _ _ hrec
            constructor
            · simp [List.countP_append, htr1, hih.1]
            · intro htel
              rw [List.filter_append, hspec.2 htel, hih.2 htel]
        · rw [if_neg hsucc] at h
          simp only [if_false, Option.some.injEq, Prod.mk.injEq] at h
          obtain ⟨rfl, rfl, -, -, -⟩ := h
          constructor
          · simp [List.countP_append, htr1, isIntentFinished]
          · intro htel
            subst htel
            rw [List.filter_append, hspec.2 rfl]
            simp [sinkOf, isEngineEvent]

/-- Counterexample for C5: on a trivial one-step workflow with an injected
sink, the sink receives a `retry_attempt_started` event (the retry primitive
emits one on every attempt, policy or not) that never enters the returned
trace — the sink sequence does not equal the trace. -/
theorem dist_sink_ne_trace_cex :
    ((Dist.runIntent oneStepIntent true 1).map fun p => p.1.trace) =
      some [TEvent.intent_started "one-step", TEvent.step_started "one-step" "s1",
        TEvent.step_finished "one-step" "s1" true none,
        TEvent.intent_finished "one-step" true none]
    ∧ ((Dist.runIntent oneStepIntent true 1).map fun p => p.2) =
      some [TEvent.intent_started "one-step", TEvent.step_started "one-step" "s1",
        TEvent.retry_attempt_started "one-step" (some "s1") 1,
        TEvent.step_finished "one-step" "s1" true none,
        TEvent.intent_finished "one-step" true none]
    ∧ ([TEvent.intent_started "one-step", TEvent.step_started "one-step" "s1",
        TEvent.step_finished "one-step" "s1" true none,
        TEvent.intent_finished "one-step" true none] : List TEvent) ≠
      [TEvent.intent_started "one-step", TEvent.step_started "one-step" "s1",
        TEvent.retry_attempt_started "one-step" (some "s1") 1,
        TEvent.step_finished "one-step" "s1" true none,
        TEvent.intent_finished "one-step" true none] := by
  refine ⟨rfl, rfl, by decide⟩

/-- C5 (amended): every returned `ExecutionResult` trace contains exactly
one `intent_finished` event, and with an injected sink the trace equals the
sink sequence restricted to engine-level events (`intent_started`,
`intent_finished`, `step_started`, `step_finished`) — retry/timeout events
go only to the sink and never into the returned trace. -/
theorem dist_trace_invariant (intent : Intent) (telB : Bool) (fuel : Nat)
    (r : RunResult) (sk : List TEvent)
    (h : Dist.runIntent intent telB fuel = some (r, sk)) :
    r.trace.countP isIntentFinished = 1
    ∧ (telB = true → r.trace = sk.filter isEngineEvent) := by
  rcases hsteps : intent.steps with _ | ⟨s0, rest⟩
  · simp only [Dist.runIntent, hsteps, Option.some.injEq, Prod.mk.injEq] at h
    obtain ⟨rfl, rfl⟩ := h
    constructor
    · simp [isIntentFinished]
    · intro htel
      subst htel
      simp [sinkOf, isIntentFinished, isEngineEvent]
  · rcases hfind : (s0 :: rest).find?
        (fun s => s.id == intent.entryStepId.getD s0.id) with _ | entryStep
    · simp only [Dist.runIntent, hsteps, hfind, Option.some.injEq, Prod.mk.injEq] at h
      obtain ⟨rfl, rfl⟩ := h
      constructor
      · simp [isIntentFinished]
      · intro htel
        subst htel
        simp [sinkOf, isIntentFinished, isEngineEvent]
    · rcases hloop : Dist.runLoop (s0 :: rest) intent.name telB fuel
          (some entryStep.id) Value.undef with _ | ⟨tr, skl⟩
      · simp [Dist.runIntent, hsteps, hfind, hloop] at h
      · rcases skl with ⟨sk', succ, out, err⟩
        have hinv := runLoop_invariant (s0 :: rest) intent.name telB fuel
          (some entryStep.id) Value.undef tr sk' succ out err hloop
        simp only [Dist.runIntent, hsteps, hfind, hloop, Option.some.injEq,
          Prod.mk.injEq] at h
        obtain ⟨rfl, rfl⟩ := h
        constructor
        · simp [List.countP_cons, isIntentFinished, hinv.1]
        · intro htel
          subst htel
          simp only [sinkOf, if_true]
          simp [isEngineEvent, hinv.2 rfl]

/-- Witness for C5 (amended): the invariant instantiated on the one-step
run. -/
theorem dist_trace_invariant_witness :
    ∃ r sk, Dist.runIntent oneStepIntent true 1 = some (r, sk)
      ∧ r.trace.countP isIntentFinished = 1
      ∧ r.trace = sk.filter isEngineEvent := by
  have h := dist_trace_invariant oneStepIntent true 1 _ _ rfl
  exact ⟨_, _, rfl, h.1, h.2 rfl⟩
